import Mathlib

/-!
Verification of the RustyPasswordGeneratorCLI core against its design
specification.  The program's logic (length validation, charset
construction, password generation, cracking-time estimate, strength
analysis) is embedded shallowly below; random number generation is
modelled as an explicit stream of draws `rnd : Nat → Nat`, each draw
being reduced modulo the relevant bound exactly where the `rand` crate
would produce a bounded value.
-/

/-- Lowercase alphabet characters (`utils.rs` / `main.rs` constant `CHARS`). -/
def CHARS : List Char := "abcdefghijklmnopqrstuvwxyz".toList

/-- Uppercase alphabet characters (`UPPERCASE_CHARS`). -/
def UPPERCASE_CHARS : List Char := "ABCDEFGHIJKLMNOPQRSTUVWXYZ".toList

/-- Numeric digits (`NUMBERS`). -/
def NUMBERS : List Char := "0123456789".toList

/-- Special characters (`SPECIAL_CHARS`). -/
def SPECIAL_CHARS : List Char := "!@#$%^&*_-+=<>?".toList

/-- Default password length (`DEFAULT_LENGTH`). -/
def DEFAULT_LENGTH : Nat := 16

/-- Minimum allowed password length (`MIN_LENGTH`). -/
def MIN_LENGTH : Nat := 8

/-- Maximum allowed password length (`MAX_LENGTH`). -/
def MAX_LENGTH : Nat := 128

/-- Parsed command-line arguments of the `generate` subcommand
(`cli.rs`, struct `GenerateArgs`).  Lengths are `u32` in the source;
they are embedded as `Nat` (no arithmetic is performed on them that
could wrap a `u32`). -/
structure GenerateArgs where
  length : Nat
  uppercase_chars : Bool
  special_chars : Bool
  numbers : Bool
deriving DecidableEq

/-- Embedding of `set_length` (`generator/mod.rs`): the requested length,
replaced by `DEFAULT_LENGTH` when outside `[MIN_LENGTH, MAX_LENGTH]`. -/
def set_length (args : GenerateArgs) : Nat :=
  let length := args.length
  if args.length < MIN_LENGTH ∨ MAX_LENGTH < args.length then DEFAULT_LENGTH
  else length

/-- Embedding of `create_charset` (`generator/mod.rs`): starts from the
lowercase pool and appends the optional pools in the source's order
(uppercase, special, numbers), mirroring the sequence of `push_str`
calls on the mutable `String`. -/
def create_charset (args : GenerateArgs) : List Char :=
  let charset := CHARS
  let charset := if args.uppercase_chars then charset ++ UPPERCASE_CHARS else charset
  let charset := if args.special_chars then charset ++ SPECIAL_CHARS else charset
  let charset := if args.numbers then charset ++ NUMBERS else charset
  charset

/-- One swap of a Fisher–Yates pass: exchange positions `i` and `j`
(out-of-range indices leave the list unchanged; the algorithm below
only ever uses in-range indices). -/
def swapList (l : List Char) (i j : Nat) : List Char :=
  match l[i]?, l[j]? with
  | some a, some b => (l.set i b).set j a
  | _, _ => l

/-- Fisher–Yates shuffle as performed by `SliceRandom::shuffle`: for the
position `i+1` (counting down to 1), swap it with a random index drawn
in `0..=i+1`.  `k` is the index of the next unused draw of `rnd`;
the pair returned is the shuffled list and the next unused draw index. -/
def shuffleAux (rnd : Nat → Nat) : List Char → Nat → Nat → List Char × Nat
  | l, k, 0 => (l, k)
  | l, k, i + 1 => shuffleAux rnd (swapList l (i + 1) (rnd k % (i + 2))) (k + 1) i

/-- Shuffle the whole list: the downward loop `for i in (1..len).rev()`. -/
def shuffle (rnd : Nat → Nat) (l : List Char) (k : Nat) : List Char × Nat :=
  shuffleAux rnd l k (l.length - 1)

/-- Embedding of `IndexedRandom::choose`: `none` on an empty slice,
otherwise the element at a uniformly drawn index. -/
def choose (l : List Char) (r : Nat) : Option Char := l[r % l.length]?

/-- Loop body of `compute_password` (`generator/mod.rs`): `n` characters
remain to generate; each iteration shuffles the (mutable) charset, then
chooses one character and appends it to the accumulated password.  The
`.expect("Charset vuoto")` panic on an empty charset is embedded as
`none`. -/
def compute_passwordAux (rnd : Nat → Nat) :
    Nat → List Char → Nat → List Char → Option (List Char)
  | 0, _, _, password => some password
  | n + 1, charset, k, password =>
    let sh := shuffle rnd charset k
    match choose sh.1 (rnd sh.2) with
    | none => none
    | some c => compute_passwordAux rnd n sh.1 (sh.2 + 1) (password ++ [c])

/-- Embedding of `compute_password` (`generator/mod.rs`): validate the
length, build the charset, then generate character by character. -/
def compute_password (rnd : Nat → Nat) (args : GenerateArgs) : Option (List Char) :=
  compute_passwordAux rnd (set_length args) (create_charset args) 0 []

/-- A draw stream that makes every Fisher–Yates swap on a charset of
size `n` the identity (each swap target is the position itself) and
makes every `choose` pick index 0. -/
def identityDraws (n : Nat) : Nat → Nat := fun k => (n - 1) - (k % n)

namespace Utils

/-- Constant `BCRYPT_CRACKING_SPEED` of `utils.rs`: the literal `9000`. -/
def BCRYPT_CRACKING_SPEED : Nat := 9000

end Utils

/-- Modulus of Rust's `u128` arithmetic. -/
def U128 : Nat := 2 ^ 128

namespace Main

/-- Constant `BCRYPT_CRACKING_SPEED` of `main.rs`: the source writes
`9*(10^3)`, and `^` is bitwise XOR on Rust integers. -/
def BCRYPT_CRACKING_SPEED : Nat := 9 * (Nat.xor 10 3)

/-- Accumulation loop of `compute_time_to_crack` (`main.rs`):
`nt += charset_length.pow(i)` for `i` in `1..=pwd_length`, in `u128`
arithmetic, so both the power and the running sum wrap modulo `2^128`. -/
def crackLoop (charset_length : Nat) : Nat → Nat
  | 0 => 0
  | i + 1 => (crackLoop charset_length i + charset_length ^ (i + 1) % U128) % U128

/-- Embedding of `compute_time_to_crack` (`main.rs`): the wrapped sum of
powers divided by `BCRYPT_CRACKING_SPEED` (integer division). -/
def compute_time_to_crack (charset_length pwd_length : Nat) : Nat :=
  crackLoop charset_length pwd_length / BCRYPT_CRACKING_SPEED

end Main

/-- Modelled from the spec: the exact (arbitrary-precision) sum
`charset_length^1 + ... + charset_length^pwd_length` that the
documentation of `compute_time_to_crack` describes, for comparison
with the wrapping `u128` implementation. -/
def specExactSum (c : Nat) : Nat → Nat
  | 0 => 0
  | i + 1 => specExactSum c i + c ^ (i + 1)

/-- Error type of the strength analyzer, from the spec's error taxonomy. -/
inductive AnalyzeError where
  | EmptyPasswordError
deriving DecidableEq

/-- Strength report of the analyzer, from the spec's data model:
category coverage, length, pool size and keyspace estimate. -/
structure StrengthReport where
  hasLower : Bool
  hasUpper : Bool
  hasDigit : Bool
  hasSpecial : Bool
  categoryCount : Nat
  len : Nat
  poolSize : Nat
  keyspace : Nat
deriving DecidableEq

/-- Modelled from the spec: the strength analyzer.  The source's
`analyze_password` (`utils.rs`) is an unimplemented stub (`todo!()`),
and the spec requires: detect each category by membership against the
builder's pools; `poolSize` is the sum of the sizes of the categories
actually present; keyspace is `poolSize ^ length` in exact integer
arithmetic; the only failure is `EmptyPasswordError` on empty input. -/
def analyze (p : List Char) : Except AnalyzeError StrengthReport :=
  if p.isEmpty then Except.error AnalyzeError.EmptyPasswordError
  else
    let lo := p.any fun c => CHARS.contains c
    let up := p.any fun c => UPPERCASE_CHARS.contains c
    let di := p.any fun c => NUMBERS.contains c
    let sp := p.any fun c => SPECIAL_CHARS.contains c
    let pool := (if lo then CHARS.length else 0) + (if up then UPPERCASE_CHARS.length else 0)
      + (if di then NUMBERS.length else 0) + (if sp then SPECIAL_CHARS.length else 0)
    let count := (if lo then 1 else 0) + (if up then 1 else 0)
      + (if di then 1 else 0) + (if sp then 1 else 0)
    Except.ok ⟨lo, up, di, sp, count, p.length, pool, pool ^ p.length⟩

/-! Helper lemmas about the generation loop. -/

theorem length_swapList (l : List Char) (i j : Nat) :
    (swapList l i j).length = l.length := by
  unfold swapList
  split <;> simp [List.length_set]

theorem mem_of_mem_swapList {l : List Char} {i j : Nat} {x : Char}
    (h : x ∈ swapList l i j) : x ∈ l := by
  unfold swapList at h
  split at h
  case _ a b h1 h2 =>
    rcases List.mem_or_eq_of_mem_set h with h3 | h3
    · rcases List.mem_or_eq_of_mem_set h3 with h4 | h4
      · exact h4
      · exact h4 ▸ List.getElem?_mem h2
    · exact h3 ▸ List.getElem?_mem h1
  case _ => exact h

theorem length_shuffleAux (rnd : Nat → Nat) (i : Nat) :
    ∀ (l : List Char) (k : Nat), ((shuffleAux rnd l k i).1).length = l.length := by
  induction i with
  | zero => intro l k; rfl
  | succ i ih =>
    intro l k
    calc ((shuffleAux rnd l k (i + 1)).1).length
        = ((shuffleAux rnd (swapList l (i + 1) (rnd k % (i + 2))) (k + 1) i).1).length := rfl
      _ = (swapList l (i + 1) (rnd k % (i + 2))).length := ih _ _
      _ = l.length := length_swapList _ _ _

theorem mem_of_mem_shuffleAux (rnd : Nat → Nat) (i : Nat) :
    ∀ (l : List Char) (k : Nat) (x : Char), x ∈ (shuffleAux rnd l k i).1 → x ∈ l := by
  induction i with
  | zero => intro l k x h; exact h
  | succ i ih =>
    intro l k x h
    exact mem_of_mem_swapList (ih _ _ _ h)

theorem length_shuffle (rnd : Nat → Nat) (l : List Char) (k : Nat) :
    ((shuffle rnd l k).1).length = l.length :=
  length_shuffleAux rnd _ l k

theorem mem_of_mem_shuffle {rnd : Nat → Nat} {l : List Char} {k : Nat} {x : Char}
    (h : x ∈ (shuffle rnd l k).1) : x ∈ l :=
  mem_of_mem_shuffleAux rnd _ l k x h

theorem shuffle_ne_nil {rnd : Nat → Nat} {l : List Char} {k : Nat}
    (h : l ≠ []) : (shuffle rnd l k).1 ≠ [] := by
  intro h0
  apply h
  have := length_shuffle rnd l k
  rw [h0] at this
  exact List.length_eq_zero.mp this.symm

theorem choose_mem {l : List Char} (hne : l ≠ []) (r : Nat) :
    ∃ c, choose l r = some c ∧ c ∈ l := by
  have hpos : 0 < l.length := List.length_pos.mpr hne
  have hlt : r % l.length < l.length := Nat.mod_lt _ hpos
  exact ⟨l.get ⟨r % l.length, hlt⟩,
    by simp [choose, List.getElem?_eq_getElem hlt],
    List.getElem_mem hlt⟩

theorem compute_passwordAux_spec (rnd : Nat → Nat) :
    ∀ (n : Nat) (charset : List Char) (k : Nat) (acc : List Char), charset ≠ [] →
      ∃ out, compute_passwordAux rnd n charset k acc = some out ∧
        out.length = acc.length + n ∧ ∀ c ∈ out, c ∈ acc ∨ c ∈ charset := by
  intro n
  induction n with
  | zero =>
    intro charset k acc hne
    exact ⟨acc, rfl, by simp, fun c hc => Or.inl hc⟩
  | succ n ih =>
    intro charset k acc hne
    have hne2 : (shuffle rnd charset k).1 ≠ [] := shuffle_ne_nil hne
    obtain ⟨c, hc, hcm⟩ := choose_mem hne2 (rnd (shuffle rnd charset k).2)
    obtain ⟨out, h1, h2, h3⟩ :=
      ih (shuffle rnd charset k).1 ((shuffle rnd charset k).2 + 1) (acc ++ [c]) hne2
    refine ⟨out, ?_, ?_, ?_⟩
    · show (match choose (shuffle rnd charset k).1 (rnd (shuffle rnd charset k).2) with
        | none => none
        | some c => compute_passwordAux rnd n (shuffle rnd charset k).1
            ((shuffle rnd charset k).2 + 1) (acc ++ [c])) = some out
      rw [hc]
      exact h1
    · rw [h2]
      simp
      omega
    · intro x hx
      rcases h3 x hx with hx1 | hx1
      · rcases List.mem_append.mp hx1 with hm | hm
        · exact Or.inl hm
        · have : x = c := by simpa using hm
          exact Or.inr (this ▸ mem_of_mem_shuffle hcm)
      · exact Or.inr (mem_of_mem_shuffle hx1)

/-! Helper lemmas about the charset builder. -/

theorem create_charset_eq (args : GenerateArgs) :
    create_charset args = CHARS
      ++ (if args.uppercase_chars then UPPERCASE_CHARS else [])
      ++ (if args.special_chars then SPECIAL_CHARS else [])
      ++ (if args.numbers then NUMBERS else []) := by
  obtain ⟨len, u, s, n⟩ := args
  cases u <;> cases s <;> cases n <;> simp [create_charset]

theorem create_charset_ne_nil (args : GenerateArgs) : create_charset args ≠ [] := by
  rw [create_charset_eq]
  intro h
  have : 'a' ∈ (CHARS
      ++ (if args.uppercase_chars then UPPERCASE_CHARS else [])
      ++ (if args.special_chars then SPECIAL_CHARS else [])
      ++ (if args.numbers then NUMBERS else [])) := by
    simp only [List.mem_append]
    left
    left
    left
    decide
  rw [h] at this
  exact List.not_mem_nil _ this

theorem lower_not_upper : ∀ c ∈ CHARS, c ∉ UPPERCASE_CHARS := by decide

theorem lower_not_special : ∀ c ∈ CHARS, c ∉ SPECIAL_CHARS := by decide

theorem lower_not_digit : ∀ c ∈ CHARS, c ∉ NUMBERS := by decide

theorem upper_not_special : ∀ c ∈ UPPERCASE_CHARS, c ∉ SPECIAL_CHARS := by decide

theorem upper_not_digit : ∀ c ∈ UPPERCASE_CHARS, c ∉ NUMBERS := by decide

theorem special_not_upper : ∀ c ∈ SPECIAL_CHARS, c ∉ UPPERCASE_CHARS := by decide

theorem special_not_digit : ∀ c ∈ SPECIAL_CHARS, c ∉ NUMBERS := by decide

theorem digit_not_upper : ∀ c ∈ NUMBERS, c ∉ UPPERCASE_CHARS := by decide

theorem digit_not_special : ∀ c ∈ NUMBERS, c ∉ SPECIAL_CHARS := by decide

theorem charset_excludes_disabled {args : GenerateArgs} {c : Char}
    (h : c ∈ create_charset args) :
    (args.uppercase_chars = false → c ∉ UPPERCASE_CHARS)
    ∧ (args.special_chars = false → c ∉ SPECIAL_CHARS)
    ∧ (args.numbers = false → c ∉ NUMBERS) := by
  rw [create_charset_eq] at h
  simp only [List.mem_append] at h
  refine ⟨?_, ?_, ?_⟩
  · intro hu
    rw [hu] at h
    simp at h
    rcases h with (h | ⟨_, h⟩) | ⟨_, h⟩
    · exact lower_not_upper c h
    · exact special_not_upper c h
    · exact digit_not_upper c h
  · intro hs
    rw [hs] at h
    simp at h
    rcases h with (h | ⟨_, h⟩) | ⟨_, h⟩
    · exact lower_not_special c h
    · exact upper_not_special c h
    · exact digit_not_special c h
  · intro hn
    rw [hn] at h
    simp at h
    rcases h with (h | ⟨_, h⟩) | ⟨_, h⟩
    · exact lower_not_digit c h
    · exact upper_not_digit c h
    · exact special_not_digit c h

set_option maxRecDepth 40000

/-- Claim C4: length validation returns the requested value unchanged when
it lies in [8, 128] and exactly 16 (the default) otherwise — never a clamp
and never a failure — and generation with an out-of-range length behaves
exactly as if the length were 16. -/
theorem set_length_in_range_or_default (r : Nat) (u s n : Bool) :
    set_length ⟨r, u, s, n⟩ = (if 8 ≤ r ∧ r ≤ 128 then r else 16)
    ∧ ∀ rnd, compute_password rnd ⟨r, u, s, n⟩ =
        compute_password rnd ⟨(if 8 ≤ r ∧ r ≤ 128 then r else 16), u, s, n⟩ := by
  have h1 : set_length ⟨r, u, s, n⟩ = (if 8 ≤ r ∧ r ≤ 128 then r else 16) := by
    show (if r < MIN_LENGTH ∨ MAX_LENGTH < r then DEFAULT_LENGTH else r) = _
    unfold MIN_LENGTH MAX_LENGTH DEFAULT_LENGTH
    split <;> split <;> omega
  have h2 : set_length ⟨(if 8 ≤ r ∧ r ≤ 128 then r else 16), u, s, n⟩
      = (if 8 ≤ r ∧ r ≤ 128 then r else 16) := by
    show (if (if 8 ≤ r ∧ r ≤ 128 then r else 16) < MIN_LENGTH
        ∨ MAX_LENGTH < (if 8 ≤ r ∧ r ≤ 128 then r else 16) then DEFAULT_LENGTH
        else (if 8 ≤ r ∧ r ≤ 128 then r else 16)) = _
    unfold MIN_LENGTH MAX_LENGTH DEFAULT_LENGTH
    split <;> split <;> omega
  refine ⟨h1, fun rnd => ?_⟩
  show compute_passwordAux rnd (set_length ⟨r, u, s, n⟩) (create_charset ⟨r, u, s, n⟩) 0 []
      = compute_passwordAux rnd (set_length ⟨(if 8 ≤ r ∧ r ≤ 128 then r else 16), u, s, n⟩)
        (create_charset ⟨(if 8 ≤ r ∧ r ≤ 128 then r else 16), u, s, n⟩) 0 []
  rw [h1, h2]
  rfl

/-- Claim C5: for every requested length in [8, 128] and every draw
sequence, generation returns a password of exactly the requested length. -/
theorem generate_length_exact (rnd : Nat → Nat) (args : GenerateArgs)
    (h1 : MIN_LENGTH ≤ args.length) (h2 : args.length ≤ MAX_LENGTH) :
    (compute_password rnd args).map List.length = some args.length := by
  have hset : set_length args = args.length := by
    show (if args.length < MIN_LENGTH ∨ MAX_LENGTH < args.length
        then DEFAULT_LENGTH else args.length) = args.length
    rw [if_neg (by omega)]
  obtain ⟨out, ho, hl, _⟩ := compute_passwordAux_spec rnd (set_length args)
    (create_charset args) 0 [] (create_charset_ne_nil args)
  show (compute_passwordAux rnd (set_length args) (create_charset args) 0 []).map
      List.length = some args.length
  rw [ho]
  simp [hl, hset]

/-- Witness for claim C5 at length 8 with no optional flags and the
identity-shuffle draw stream. -/
theorem generate_length_exact_witness :
    (compute_password (identityDraws 26) ⟨8, false, false, false⟩).map List.length
      = some 8 :=
  generate_length_exact (identityDraws 26) ⟨8, false, false, false⟩ (by decide) (by decide)

/-- Claim C6: for every flag combination the built charset is exactly the
26 lowercase letters, then the 26 uppercase letters iff requested, then
the 15 special characters iff requested, then the 10 digits iff
requested, in that fixed order. -/
theorem create_charset_fixed_order (len : Nat) (u s n : Bool) :
    create_charset ⟨len, u, s, n⟩ =
      "abcdefghijklmnopqrstuvwxyz".toList
      ++ (if u then "ABCDEFGHIJKLMNOPQRSTUVWXYZ".toList else [])
      ++ (if s then "!@#$%^&*_-+=<>?".toList else [])
      ++ (if n then "0123456789".toList else []) := by
  rw [create_charset_eq]
  rfl

/-- Claim C7: with requested length 8 and no optional flags, every draw
sequence yields a password of length 8 made only of lowercase letters. -/
theorem generate_lowercase_only (rnd : Nat → Nat) (p : List Char)
    (h : compute_password rnd ⟨8, false, false, false⟩ = some p) :
    p.length = 8 ∧ ∀ c ∈ p, c ∈ CHARS := by
  obtain ⟨out, ho, hl, hm⟩ := compute_passwordAux_spec rnd
    (set_length ⟨8, false, false, false⟩) (create_charset ⟨8, false, false, false⟩)
    0 [] (create_charset_ne_nil _)
  unfold compute_password at h
  rw [ho] at h
  injection h with h
  subst h
  constructor
  · rw [hl]
    rfl
  · intro c hc
    have := (hm c hc).resolve_left (List.not_mem_nil c)
    simpa [create_charset, CHARS] using this

/-- Witness for claim C7: the identity-shuffle draw stream yields the
all-lowercase password `aaaaaaaa`. -/
theorem generate_lowercase_only_witness :
    (List.replicate 8 'a').length = 8 ∧ ∀ c ∈ List.replicate 8 'a', c ∈ CHARS :=
  generate_lowercase_only (identityDraws 26) (List.replicate 8 'a') (by decide)

/-- Claim C8: the charset handed to the generator is never empty (it always
contains the lowercase pool), so the empty-charset failure branch of the
generation loop is unreachable: generation always returns a password. -/
theorem charset_nonempty_generation_total (args : GenerateArgs) :
    create_charset args ≠ [] ∧ ∀ rnd, (compute_password rnd args).isSome = true := by
  refine ⟨create_charset_ne_nil args, fun rnd => ?_⟩
  obtain ⟨out, h1, _, _⟩ := compute_passwordAux_spec rnd (set_length args)
    (create_charset args) 0 [] (create_charset_ne_nil args)
  show (compute_passwordAux rnd (set_length args) (create_charset args) 0 []).isSome = true
  rw [h1]
  rfl

/-- Claim C10: every character of a generated password belongs to the
charset built for the request's flags, and no character of a disabled
category ever appears. -/
theorem password_chars_subset_charset (rnd : Nat → Nat) (args : GenerateArgs)
    (p : List Char) (h : compute_password rnd args = some p) :
    (∀ c ∈ p, c ∈ create_charset args)
    ∧ (args.uppercase_chars = false → ∀ c ∈ p, c ∉ UPPERCASE_CHARS)
    ∧ (args.special_chars = false → ∀ c ∈ p, c ∉ SPECIAL_CHARS)
    ∧ (args.numbers = false → ∀ c ∈ p, c ∉ NUMBERS) := by
  obtain ⟨out, ho, hl, hm⟩ := compute_passwordAux_spec rnd (set_length args)
    (create_charset args) 0 [] (create_charset_ne_nil args)
  unfold compute_password at h
  rw [ho] at h
  injection h with h
  subst h
  have hmem : ∀ c ∈ out, c ∈ create_charset args :=
    fun c hc => (hm c hc).resolve_left (List.not_mem_nil c)
  exact ⟨hmem,
    fun hu c hc => (charset_excludes_disabled (hmem c hc)).1 hu,
    fun hs c hc => (charset_excludes_disabled (hmem c hc)).2.1 hs,
    fun hn c hc => (charset_excludes_disabled (hmem c hc)).2.2 hn⟩

/-- Witness for claim C10 at length 8 with no optional flags and the
identity-shuffle draw stream. -/
theorem password_chars_subset_charset_witness :
    (∀ c ∈ List.replicate 8 'a', c ∈ create_charset ⟨8, false, false, false⟩)
    ∧ ((⟨8, false, false, false⟩ : GenerateArgs).uppercase_chars = false →
        ∀ c ∈ List.replicate 8 'a', c ∉ UPPERCASE_CHARS)
    ∧ ((⟨8, false, false, false⟩ : GenerateArgs).special_chars = false →
        ∀ c ∈ List.replicate 8 'a', c ∉ SPECIAL_CHARS)
    ∧ ((⟨8, false, false, false⟩ : GenerateArgs).numbers = false →
        ∀ c ∈ List.replicate 8 'a', c ∉ NUMBERS) :=
  password_chars_subset_charset (identityDraws 26) ⟨8, false, false, false⟩
    (List.replicate 8 'a') (by decide)

/-- Claim C1 (failing-input evaluation): with the uppercase flag enabled
and the draw stream that makes every shuffle the identity and every
choice index 0, generation returns the all-lowercase password
`aaaaaaaa`, which contains no character of the enabled uppercase pool —
the code gives no per-category guarantee. -/
theorem generate_misses_enabled_uppercase :
    compute_password (identityDraws 52) ⟨8, true, false, false⟩
      = some (List.replicate 8 'a')
    ∧ ∀ c ∈ List.replicate 8 'a', c ∉ UPPERCASE_CHARS := by
  constructor
  · decide
  · decide

/-- Claim C2: the analyzer fails exactly on the empty string, and then
with `EmptyPasswordError`; every non-empty input yields a report. -/
theorem analyze_fails_iff_empty (p : List Char) :
    (analyze p = Except.error AnalyzeError.EmptyPasswordError ↔ p = [])
    ∧ ((analyze p).isOk = true ↔ p ≠ []) := by
  cases p <;> simp [analyze, Except.isOk, Except.toBool]

/-- Claim C3: for every non-empty password the reported keyspace is
`poolSize ^ length`, where `poolSize` adds 26, 26, 10 and 15 for the
lowercase, uppercase, digit and special pools actually present; in
particular `analyze "abc"` reports one category and keyspace `26^3`. -/
theorem analyze_keyspace_eq_pool_pow_len (p : List Char) (r : StrengthReport)
    (h : analyze p = Except.ok r) :
    r.keyspace = r.poolSize ^ p.length
    ∧ r.poolSize = ((if ∃ c ∈ p, c ∈ CHARS then 26 else 0)
        + (if ∃ c ∈ p, c ∈ UPPERCASE_CHARS then 26 else 0)
        + (if ∃ c ∈ p, c ∈ NUMBERS then 10 else 0)
        + (if ∃ c ∈ p, c ∈ SPECIAL_CHARS then 15 else 0))
    ∧ (p = "abc".toList → r.categoryCount = 1 ∧ r.keyspace = 17576) := by
  have hne : p ≠ [] := by
    intro h0
    rw [h0] at h
    simp [analyze] at h
  have hE : p.isEmpty = false := by
    simpa [List.isEmpty_iff] using hne
  unfold analyze at h
  rw [hE] at h
  simp only [Bool.false_eq_true, if_false] at h
  injection h with h
  subst h
  refine ⟨rfl, ?_, ?_⟩
  · have e1 : ((p.any fun c => CHARS.contains c) = true) ↔ ∃ c ∈ p, c ∈ CHARS := by
      simp
    have e2 : ((p.any fun c => UPPERCASE_CHARS.contains c) = true)
        ↔ ∃ c ∈ p, c ∈ UPPERCASE_CHARS := by
      simp
    have e3 : ((p.any fun c => NUMBERS.contains c) = true) ↔ ∃ c ∈ p, c ∈ NUMBERS := by
      simp
    have e4 : ((p.any fun c => SPECIAL_CHARS.contains c) = true)
        ↔ ∃ c ∈ p, c ∈ SPECIAL_CHARS := by
      simp
    show ((if (p.any fun c => CHARS.contains c) then CHARS.length else 0)
        + (if (p.any fun c => UPPERCASE_CHARS.contains c) then UPPERCASE_CHARS.length else 0)
        + (if (p.any fun c => NUMBERS.contains c) then NUMBERS.length else 0)
        + (if (p.any fun c => SPECIAL_CHARS.contains c) then SPECIAL_CHARS.length else 0)) = _
    rw [if_congr e1 rfl rfl, if_congr e2 rfl rfl, if_congr e3 rfl rfl, if_congr e4 rfl rfl]
    have l1 : CHARS.length = 26 := by decide
    have l2 : UPPERCASE_CHARS.length = 26 := by decide
    have l3 : NUMBERS.length = 10 := by decide
    have l4 : SPECIAL_CHARS.length = 15 := by decide
    rw [l1, l2, l3, l4]
  · intro hab
    subst hab
    decide

/-- Witness for claim C3 at the password `abc`, whose report has one
category, pool size 26 and keyspace `26^3 = 17576`. -/
theorem analyze_keyspace_abc_witness :
    (⟨true, false, false, false, 1, 3, 26, 17576⟩ : StrengthReport).keyspace
      = (⟨true, false, false, false, 1, 3, 26, 17576⟩ : StrengthReport).poolSize
        ^ ("abc".toList).length
    ∧ (⟨true, false, false, false, 1, 3, 26, 17576⟩ : StrengthReport).poolSize
      = ((if ∃ c ∈ "abc".toList, c ∈ CHARS then 26 else 0)
        + (if ∃ c ∈ "abc".toList, c ∈ UPPERCASE_CHARS then 26 else 0)
        + (if ∃ c ∈ "abc".toList, c ∈ NUMBERS then 10 else 0)
        + (if ∃ c ∈ "abc".toList, c ∈ SPECIAL_CHARS then 15 else 0))
    ∧ ("abc".toList = "abc".toList →
        (⟨true, false, false, false, 1, 3, 26, 17576⟩ : StrengthReport).categoryCount = 1
        ∧ (⟨true, false, false, false, 1, 3, 26, 17576⟩ : StrengthReport).keyspace = 17576) :=
  analyze_keyspace_eq_pool_pow_len ("abc".toList)
    ⟨true, false, false, false, 1, 3, 26, 17576⟩ (by rfl)

/-- The wrapped accumulation loop computes the exact sum modulo `2^128`. -/
theorem crackLoop_eq_specExactSum (c : Nat) :
    ∀ l, Main.crackLoop c l = specExactSum c l % U128 := by
  intro l
  induction l with
  | zero => simp [Main.crackLoop, specExactSum]
  | succ i ih =>
    show (Main.crackLoop c i + c ^ (i + 1) % U128) % U128
        = (specExactSum c i + c ^ (i + 1)) % U128
    rw [ih]
    conv_rhs => rw [Nat.add_mod]

/-- Claim C9 (amended): the constant `BCRYPT_CRACKING_SPEED` of `main.rs`,
written `9*(10^3)` with `^` being XOR, equals 81 — not the 9000 that its
documentation and the `utils.rs` duplicate state — and
`compute_time_to_crack` returns the sum `c^1 + ... + c^l` reduced modulo
`2^128` (its `u128` arithmetic wraps), divided by 81. -/
theorem time_to_crack_wrapped_sum_div81 (c l : Nat) :
    Main.compute_time_to_crack c l = (specExactSum c l % U128) / 81
    ∧ Main.BCRYPT_CRACKING_SPEED = 81
    ∧ Utils.BCRYPT_CRACKING_SPEED = 9000 := by
  refine ⟨?_, by decide, rfl⟩
  show Main.crackLoop c l / Main.BCRYPT_CRACKING_SPEED = _
  rw [crackLoop_eq_specExactSum]
  rfl

/-- Counterexample for claim C9 as stated: at charset length 2 and
password length 128 the `u128` sum wraps past `2^128`, so the function's
result differs from the exact sum divided by 81. -/
theorem time_to_crack_exact_sum_cex :
    ¬ (Main.compute_time_to_crack 2 128 = specExactSum 2 128 / 81) := by decide
